import Mathlib

/-!
# Verification of the MusicAbility MIDI/WAV core (`src/app.py`)

Shallow embedding of the pure computational core of the repository:
pitch resolution (`pitch_to_midi`), the variable-length-quantity encoder
(`_encode_varint`), the tempo meta-event (`_meta_tempo`), the MIDI builder
(`build_midi`), the WAV synthesizer (`synthesize_wav`) and the WAV duration
probe (`_wav_duration`).

Modelling conventions:
* Python `int` values become `ℤ` (or `ℕ` where the source value is
  provably non-negative); Python `float` values become `ℚ`.  The source's
  float arithmetic on score data (beats, tempo quotients) is modelled as
  exact rational arithmetic; every concrete input used in a theorem below
  keeps the two semantics in agreement (the quantities involved are far
  from the rounding boundaries of IEEE doubles).
* `x & 0x7F` on a non-negative int is written `x % 128`, and `x >> 7` is
  written `x / 128` (these are equal on `ℕ`).
* Byte strings become `List ℕ` with entries below 256.
* Python's `sorted` (a stable sort) is modelled by `List.insertionSort`
  with a reflexive total preorder, which is stable in the same sense.
* `while` loops whose body shrinks a measure are written as structural
  recursion over a fuel bounding the iteration count; for each such
  function a `*_loop_eq` theorem below proves it satisfies the exact
  loop-step equation of the source, so the fuel is invisible.
* The transcendental waveform (`math.sin` partials) of the synthesizer is
  the one quantity with no exact rational counterpart; the synthesizer is
  therefore parametrised by an oscillator function `osc` giving the raw
  (pre-envelope) waveform sample.  No claim below depends on the values
  the oscillator takes.
-/

namespace MusicAbility

/-! ## Byte-string helpers -/

/-- Big-endian 16-bit serialization, as produced by `struct.pack(">H", n)`. -/
def u16be (n : ℕ) : List ℕ := [n / 256 % 256, n % 256]

/-- Big-endian 32-bit serialization, as produced by `struct.pack(">I", n)`. -/
def u32be (n : ℕ) : List ℕ :=
  [n / 16777216 % 256, n / 65536 % 256, n / 256 % 256, n % 256]

/-- Little-endian 16-bit serialization, as produced by `struct.pack("<H", n)`. -/
def u16le (n : ℕ) : List ℕ := [n % 256, n / 256 % 256]

/-- Little-endian 32-bit serialization, as produced by `struct.pack("<I", n)`. -/
def u32le (n : ℕ) : List ℕ :=
  [n % 256, n / 256 % 256, n / 65536 % 256, n / 16777216 % 256]

/-- Little-endian signed 16-bit serialization (`struct.pack("<h", v)` for
`v ∈ [-32768, 32767]`): two's complement, low byte first. -/
def i16le (v : ℤ) : List ℕ := [(v % 65536 % 256).toNat, (v % 65536 / 256).toNat]

/-- Python `int(q)` on an exact rational: truncation toward zero. -/
def ratTrunc (q : ℚ) : ℤ := q.num.tdiv q.den

/-! ## `_encode_varint` (src/app.py lines 350–357)

```python
def _encode_varint(value: int) -> bytes:
    buf = [value & 0x7F]
    value >>= 7
    while value:
        buf.append((value & 0x7F) | 0x80)
        value >>= 7
    return bytes(reversed(buf))
```

The loop terminates only for non-negative `value` (claim C10); on `ℕ` the
shifted value `v / 128` reaches 0 in at most `v` steps, so `v` itself is a
valid fuel. -/

/-- The `while value:` loop, fuelled: one byte `(value & 0x7F) | 0x80` per
iteration, in emission (pre-`reversed`) order. -/
def encodeVarintAux : ℕ → ℕ → List ℕ
  | 0, _ => []
  | fuel + 1, v => if v = 0 then [] else (v % 128 + 128) :: encodeVarintAux fuel (v / 128)

/-- The `while value:` loop of `_encode_varint`, started with enough fuel. -/
def encodeVarintLoop (v : ℕ) : List ℕ := encodeVarintAux v v

/-- Encoder `_encode_varint`: base-128 groups, most significant first, continuation
bit `0x80` on every byte except the last. -/
def _encode_varint (value : ℕ) : List ℕ :=
  ((value % 128) :: encodeVarintLoop (value / 128)).reverse

/-- The decoder described by the spec: fold each byte's low 7 bits into an
accumulator, most-significant group first. -/
def decode_varint (bytes : List ℕ) : ℕ :=
  bytes.foldl (fun acc b => acc * 128 + b % 128) 0

/-! ## `_meta_tempo` (src/app.py lines 360–363)

```python
def _meta_tempo(bpm: int) -> bytes:
    us = int(60_000_000 / bpm)
    return b"\xFF\x51\x03" + struct.pack(">I", us)[1:]
```

`60_000_000 / bpm` is float division followed by `int` truncation.  For
`bpm ∈ [40,200]` the exact quotient is either an integer or at least
`1/200` away from one — far beyond the rounding error of an IEEE double
at this magnitude — so the result equals floor division `60000000 / bpm`
on `ℕ`. -/

def _meta_tempo (bpm : ℕ) : List ℕ :=
  [0xFF, 0x51, 0x03] ++ (u32be (60000000 / bpm)).drop 1

/-! ## `pitch_to_midi` (src/app.py lines 333–347)

```python
def pitch_to_midi(pitch_str: str) -> int:
    match = re.fullmatch(r"([A-G])([#b]?)(-?\d+)", pitch_str.strip())
    if not match:
        raise ValueError(f"Pitch inválido: '{pitch_str}'")
    note, acc, octave = match.group(1), match.group(2), int(match.group(3))
    midi = (octave + 1) * 12 + _NOTE_MAP[note] + _ACCID_MAP.get(acc, 0)
    while midi < PITCH_MIN:
        midi += 12
    while midi > PITCH_MAX:
        midi -= 12
    return midi
```

The `raise ValueError` path is modelled by `Option.none`. -/

/-- Table `_NOTE_MAP = {"C": 0, "D": 2, "E": 4, "F": 5, "G": 7, "A": 9, "B": 11}`;
`none` for a letter outside A–G (no regex match). -/
def noteMap (c : Char) : Option ℤ :=
  match c with
  | 'C' => some 0
  | 'D' => some 2
  | 'E' => some 4
  | 'F' => some 5
  | 'G' => some 7
  | 'A' => some 9
  | 'B' => some 11
  | _ => none

/-- Table `_ACCID_MAP = {"#": 1, "b": -1}` (offset of the optional accidental). -/
def accidMap (c : Char) : Option ℤ :=
  match c with
  | '#' => some 1
  | 'b' => some (-1)
  | _ => none

/-- Digit run `\d+` → its value, `none` if empty or a non-digit is present. -/
def digitsToNat : List Char → Option ℕ
  | [] => none
  | [c] => if c.isDigit then some (c.toNat - 48) else none
  | c :: rest =>
    if c.isDigit then
      (digitsToNat rest).map (fun n => n + (c.toNat - 48) * 10 ^ rest.length)
    else none

/-- The octave group `(-?\d+)` of the regex, as a signed integer. -/
def parseOctave : List Char → Option ℤ
  | '-' :: rest => (digitsToNat rest).map (fun n => -(n : ℤ))
  | cs => (digitsToNat cs).map (fun n => (n : ℤ))

/-- Model of `re.fullmatch(r"([A-G])([#b]?)(-?\d+)", s)`: the letter's semitone, the
accidental offset, and the octave. -/
def parsePitchChars : List Char → Option (ℤ × ℤ × ℤ)
  | [] => none
  | c :: rest =>
    match noteMap c with
    | none => none
    | some sem =>
      match rest with
      | a :: rest2 =>
        match accidMap a with
        | some off => (parseOctave rest2).map (fun o => (sem, off, o))
        | none => (parseOctave rest).map (fun o => (sem, 0, o))
      | [] => none

/-- Fuelled `while midi < PITCH_MIN: midi += 12` (PITCH_MIN = 48). -/
def foldLowAux : ℕ → ℤ → ℤ
  | 0, m => m
  | fuel + 1, m => if m < 48 then foldLowAux fuel (m + 12) else m

/-- Loop `while midi < PITCH_MIN: midi += 12`; the loop runs at most
`(48 - m).toNat` times since each step adds 12. -/
def foldLow (m : ℤ) : ℤ := foldLowAux (48 - m).toNat m

/-- Fuelled `while midi > PITCH_MAX: midi -= 12` (PITCH_MAX = 72). -/
def foldHighAux : ℕ → ℤ → ℤ
  | 0, m => m
  | fuel + 1, m => if 72 < m then foldHighAux fuel (m - 12) else m

/-- Loop `while midi > PITCH_MAX: midi -= 12`; the loop runs at most
`(m - 72).toNat` times since each step subtracts 12. -/
def foldHigh (m : ℤ) : ℤ := foldHighAux (m - 72).toNat m

/-- The arithmetic core of `pitch_to_midi`: base MIDI number from the
parsed groups, then the two folding loops. -/
def resolveMidi (sem off octave : ℤ) : ℤ :=
  foldHigh (foldLow ((octave + 1) * 12 + sem + off))

/-- Model of `pitch_str.strip()`: remove whitespace from both ends. -/
def stripChars (cs : List Char) : List Char :=
  ((cs.dropWhile Char.isWhitespace).reverse.dropWhile Char.isWhitespace).reverse

/-- Resolver `pitch_to_midi`, with `none` for the `ValueError` path. -/
def pitch_to_midi (s : String) : Option ℤ :=
  (parsePitchChars (stripChars s.data)).map
    (fun g => resolveMidi g.1 g.2.1 g.2.2)

/-! ## The score data model (the JSON dict consumed by the encoders) -/

/-- One entry of the `melody` array. -/
structure NoteEntry where
  pitch : String
  start_beat : ℚ
  duration_beats : ℚ
  velocity : ℤ
deriving DecidableEq

/-- The music JSON fields the encoding/synthesis core reads. -/
structure MusicScore where
  tempo_bpm : ℤ
  melody : List NoteEntry
deriving DecidableEq

/-- Clamp `max(40, min(200, int(music_json["tempo_bpm"])))`. -/
def bpmClamp (t : ℤ) : ℤ := max 40 (min 200 t)

/-- Clamp `max(0, min(127, int(note["velocity"])))`. -/
def velClamp (v : ℤ) : ℤ := max 0 (min 127 v)

/-! ## `build_midi` (src/app.py lines 366–409) -/

/-- Tick `start = int(float(note["start_beat"]) * tpb)` with `tpb = 480`. -/
def startTick (n : NoteEntry) : ℤ := ratTrunc (n.start_beat * 480)

/-- Tick count `dur = max(1, int(float(note["duration_beats"]) * tpb))`. -/
def durTicks (n : NoteEntry) : ℤ := max 1 (ratTrunc (n.duration_beats * 480))

/-- One event tuple `(tick_absoluto, prioridad, status, p1, p2)`. -/
structure MEvent where
  tick : ℤ
  prio : ℕ
  status : ℕ
  data1 : ℕ
  data2 : ℕ
deriving DecidableEq

/-- The pair of events a melody entry contributes: note-on `0x90` at its
start tick (priority 1) and note-off `0x80` at start + duration
(priority 0); nothing if the pitch fails to parse (`except ValueError:
continue`). -/
def noteEvents (n : NoteEntry) : List MEvent :=
  match pitch_to_midi n.pitch with
  | none => []
  | some m =>
    [⟨startTick n, 1, 0x90, m.toNat, (velClamp n.velocity).toNat⟩,
     ⟨startTick n + durTicks n, 0, 0x80, m.toNat, 0⟩]

/-- Key of `sorted(music_json["melody"], key=lambda n: float(n["start_beat"]))`. -/
def noteLe (a b : NoteEntry) : Prop := a.start_beat ≤ b.start_beat

instance : DecidableRel noteLe :=
  fun a b => inferInstanceAs (Decidable (a.start_beat ≤ b.start_beat))

instance : IsTotal NoteEntry noteLe := ⟨fun a b => le_total a.start_beat b.start_beat⟩

instance : IsTrans NoteEntry noteLe := ⟨fun _ _ _ => le_trans⟩

/-- Key of `events.sort(key=lambda e: (e[0], e[1]))`: lexicographic
(tick, priority) order. -/
def eventLe (e f : MEvent) : Prop :=
  e.tick < f.tick ∨ (e.tick = f.tick ∧ e.prio ≤ f.prio)

instance : DecidableRel eventLe :=
  fun e f =>
    inferInstanceAs (Decidable (e.tick < f.tick ∨ (e.tick = f.tick ∧ e.prio ≤ f.prio)))

instance : IsTotal MEvent eventLe := by
  constructor
  intro a b
  unfold eventLe
  rcases lt_trichotomy a.tick b.tick with h | h | h
  · exact Or.inl (Or.inl h)
  · rcases Nat.le_total a.prio b.prio with hp | hp
    · exact Or.inl (Or.inr ⟨h, hp⟩)
    · exact Or.inr (Or.inr ⟨h.symm, hp⟩)
  · exact Or.inr (Or.inl h)

instance : IsTrans MEvent eventLe := by
  constructor
  intro a b c hab hbc
  unfold eventLe at *
  rcases hab with h1 | ⟨h1, p1⟩ <;> rcases hbc with h2 | ⟨h2, p2⟩
  · exact Or.inl (h1.trans h2)
  · exact Or.inl (h2 ▸ h1)
  · exact Or.inl (h1 ▸ h2)
  · exact Or.inr ⟨h1.trans h2, p1.trans p2⟩

/-- The event list of `build_midi`: sort the melody by start beat
(stable), emit each surviving note's on/off pair, then stable-sort all
events by `(tick, priority)`. -/
def scoreEvents (mel : List NoteEntry) : List MEvent :=
  List.insertionSort eventLe
    (((List.insertionSort noteLe mel).map noteEvents).flatten)

/-- The delta-times the serialization loop computes: `delta = tick -
current_tick` with `current_tick` starting at 0. -/
def trackDeltas (cur : ℤ) : List MEvent → List ℤ
  | [] => []
  | e :: rest => (e.tick - cur) :: trackDeltas e.tick rest

/-- The serialization loop: `track += _encode_varint(delta) +
bytes([status, p1, p2])`.  `(e.tick - cur).toNat` mirrors the Python
`int` delta, which is non-negative for every event list the program
builds (claim C10). -/
def serEvents (cur : ℤ) : List MEvent → List ℕ
  | [] => []
  | e :: rest =>
    _encode_varint (e.tick - cur).toNat ++ [e.status, e.data1, e.data2]
      ++ serEvents e.tick rest

/-- The `MTrk` payload: delta-0 tempo meta, delta-0 program change
`C0 00`, the serialized events, and end-of-track `00 FF 2F 00`. -/
def buildTrack (s : MusicScore) : List ℕ :=
  _encode_varint 0 ++ _meta_tempo (bpmClamp s.tempo_bpm).toNat
    ++ _encode_varint 0 ++ [0xC0, 0x00]
    ++ serEvents 0 (scoreEvents s.melody)
    ++ [0x00, 0xFF, 0x2F, 0x00]

/-- Header `"MThd"` then `struct.pack(">IHHH", 6, 0, 1, 480)`. -/
def midiHeader : List ℕ :=
  [77, 84, 104, 100] ++ u32be 6 ++ u16be 0 ++ u16be 1 ++ u16be 480

/-- Builder `build_midi`: header chunk, then `"MTrk"`, big-endian track length,
track bytes. -/
def build_midi (s : MusicScore) : List ℕ :=
  midiHeader ++ [77, 84, 114, 107] ++ u32be (buildTrack s).length ++ buildTrack s

/-! ## `synthesize_wav` (src/app.py lines 412–491) -/

/-- Seconds per beat: `spb = 60.0 / bpm`. -/
def spbOf (bpm : ℤ) : ℚ := 60 / (bpm : ℚ)

/-- One note's end time in seconds:
`end = (start_beat + duration_beats) * spb`. -/
def noteEnd (spb : ℚ) (n : NoteEntry) : ℚ := (n.start_beat + n.duration_beats) * spb

/-- The `max_end` loop: `if end > max_end: max_end = end`, starting at
`0.0`, over the whole melody (including entries whose pitch later fails
to parse). -/
def maxEnd (spb : ℚ) (mel : List NoteEntry) : ℚ :=
  mel.foldl (fun acc n => if noteEnd spb n > acc then noteEnd spb n else acc) 0

/-- Buffer size `total_samples = int((max_end + 0.3) * sample_rate)`. -/
def totalSamples (s : MusicScore) (sampleRate : ℕ) : ℤ :=
  ratTrunc ((maxEnd (spbOf (bpmClamp s.tempo_bpm)) s.melody + 3/10) * sampleRate)

/-- The per-sample ADSR envelope of the inner loop (`att`, `dec`, `rel`
are the phase lengths in samples, `ns` the note length in samples,
`i` the sample index, sustain level 0.6). -/
def envelope (att dec rel ns : ℤ) (i : ℕ) : ℚ :=
  if (i : ℤ) < att then (if 0 < att then (i : ℚ) / (att : ℚ) else 1)
  else if (i : ℤ) < att + dec then
    (if 0 < dec then 1 - (1 - 6/10) * (((i : ℚ) - (att : ℚ)) / (dec : ℚ)) else 6/10)
  else if (i : ℤ) < ns - rel then 6/10
  else (if 0 < rel then (6/10) * (((ns : ℚ) - (i : ℚ)) / (rel : ℚ)) else 0)

/-- The per-note accumulation of `synthesize_wav`: resolve the pitch
(skip the note on failure), then add `sample * vel * env * 0.35` into the
buffer at each in-range index.  `osc m i` abstracts the transcendental
three-partial sine waveform at MIDI note `m`, sample offset `i`. -/
def addNote (osc : ℤ → ℕ → ℚ) (spb : ℚ) (sampleRate : ℕ) (total : ℕ)
    (buf : List ℚ) (n : NoteEntry) : List ℚ :=
  match pitch_to_midi n.pitch with
  | none => buf
  | some m =>
    let vel : ℚ := ((velClamp n.velocity : ℤ) : ℚ) / 127
    let t0 : ℚ := n.start_beat * spb
    let dur : ℚ := n.duration_beats * spb
    let s0 : ℤ := ratTrunc (t0 * sampleRate)
    let ns0 : ℤ := ratTrunc (dur * sampleRate)
    let ns : ℤ := if (total : ℤ) < s0 + ns0 then (total : ℤ) - s0 else ns0
    let att : ℤ := ratTrunc ((2/100 : ℚ) * sampleRate)
    let dec : ℤ := ratTrunc ((4/100 : ℚ) * sampleRate)
    let rel : ℤ := ratTrunc ((6/100 : ℚ) * sampleRate)
    (List.range ns.toNat).foldl (fun (b : List ℚ) (i : ℕ) =>
      let idx : ℤ := s0 + (i : ℤ)
      if 0 ≤ idx ∧ idx < (total : ℤ) then
        b.set idx.toNat
          (b.getD idx.toNat 0 + osc m i * vel * envelope att dec rel ns i * (35/100))
      else b) buf

/-- The synthesis buffer: `[0.0] * total_samples`, then every melody
entry accumulated in order. -/
def synthBuf (osc : ℤ → ℕ → ℚ) (s : MusicScore) (sampleRate : ℕ) : List ℚ :=
  let spb := spbOf (bpmClamp s.tempo_bpm)
  let total := (totalSamples s sampleRate).toNat
  s.melody.foldl (addNote osc spb sampleRate total) (List.replicate total 0)

/-- Peak `peak = max(abs(s) for s in buf) if buf else 1.0`, then the
`peak < 1e-6` fallback to 1.0. -/
def peakOf (buf : List ℚ) : ℚ :=
  let p := match buf with
    | [] => 1
    | x :: xs => xs.foldl (fun a v => max a |v|) |x|
  if p < 1/1000000 then 1 else p

/-- Normalization and 16-bit quantization:
`max(-32768, min(32767, int(s * scale)))` with `scale = 32000.0 / peak`,
packed little-endian. -/
def pcmBytes (buf : List ℚ) : List ℕ :=
  (buf.map (fun v => max (-32768) (min 32767 (ratTrunc (v * (32000 / peakOf buf)))))).flatMap i16le

/-- Synthesizer `synthesize_wav`: the RIFF/WAVE container around the quantized
buffer (PCM format 1, mono, 16-bit). -/
def synthesize_wav (osc : ℤ → ℕ → ℚ) (s : MusicScore) (sampleRate : ℕ) : List ℕ :=
  let pcm := pcmBytes (synthBuf osc s sampleRate)
  [82, 73, 70, 70] ++ u32le (36 + pcm.length) ++ [87, 65, 86, 69]
    ++ [102, 109, 116, 32] ++ u32le 16 ++ u16le 1 ++ u16le 1
    ++ u32le sampleRate ++ u32le (sampleRate * 2) ++ u16le 2 ++ u16le 16
    ++ [100, 97, 116, 97] ++ u32le pcm.length ++ pcm

/-! ## `_wav_duration` (src/app.py lines 54–69)

```python
def _wav_duration(wav_bytes: bytes) -> float:
    try:
        if len(wav_bytes) < 44:
            return 0.0
        channels    = struct.unpack_from("<H", wav_bytes, 22)[0]
        sample_rate = struct.unpack_from("<I", wav_bytes, 24)[0]
        bits        = struct.unpack_from("<H", wav_bytes, 34)[0]
        pcm         = wav_bytes[44:]
        n_samples   = len(pcm) // (bits // 8)
        duration    = n_samples / (sample_rate * channels) if sample_rate else 0
        return round(duration, 1)
    except Exception:
        return 0.0
```

`bits // 8 == 0` and `channels == 0` raise `ZeroDivisionError`, which the
`except` turns into `0.0`. -/

/-- Python's banker's rounding to the nearest integer (ties to even). -/
def roundHalfEven (q : ℚ) : ℤ :=
  let f : ℤ := ratTrunc q - (if q < ratTrunc q then 1 else 0)
  if q - f < 1/2 then f
  else if (1/2 : ℚ) < q - f then f + 1
  else if f % 2 = 0 then f else f + 1

/-- Model of `round(x, 1)`: round to one decimal place, ties to even.  (Python
rounds the IEEE double; on the exact rationals appearing in the theorems
below the two agree.) -/
def roundTenth (q : ℚ) : ℚ := (roundHalfEven (q * 10) : ℚ) / 10

/-- Little-endian 16-bit read at byte offset `off`. -/
def readU16 (b : List ℕ) (off : ℕ) : ℕ := b.getD off 0 + 256 * b.getD (off + 1) 0

/-- Little-endian 32-bit read at byte offset `off`. -/
def readU32 (b : List ℕ) (off : ℕ) : ℕ :=
  b.getD off 0 + 256 * b.getD (off + 1) 0 + 65536 * b.getD (off + 2) 0
    + 16777216 * b.getD (off + 3) 0

/-- Probe `_wav_duration`, all exception paths returning 0. -/
def _wav_duration (b : List ℕ) : ℚ :=
  if b.length < 44 then 0
  else
    let channels := readU16 b 22
    let sampleRate := readU32 b 24
    let bits := readU16 b 34
    if bits / 8 = 0 then 0
    else
      let nSamples := (b.length - 44) / (bits / 8)
      if sampleRate = 0 then 0
      else if channels = 0 then 0
      else roundTenth ((nSamples : ℚ) / ((sampleRate * channels : ℕ) : ℚ))

/-! ## Concrete inputs used by witnesses and counterexamples -/

/-- Note `{pitch: "C4", start_beat: 0, duration_beats: 1, velocity: 80}`. -/
def exNote : NoteEntry := ⟨"C4", 0, 1, 80⟩

/-- A one-note score at 90 BPM (end-to-end scenario 1 of the spec). -/
def exScore : MusicScore := ⟨90, [exNote]⟩

/-- A note whose pitch token fails to parse (end-to-end scenario 2). -/
def badNote : NoteEntry := ⟨"Z9", 1/2, 1, 80⟩

/-- A score mixing a good and a bad note. -/
def mixedScore : MusicScore := ⟨90, [exNote, badNote]⟩

/-- A note with a fractional start beat whose tick truncates (C5). -/
def fracNote : NoteEntry := ⟨"C4", 333/1000, 1, 80⟩

/-- A 41-BPM one-note score whose sample count is fractional (C8). -/
def score41 : MusicScore := ⟨41, [exNote]⟩

/-- A 45-byte WAV buffer: mono, 8 Hz, 8 bits per sample, one PCM byte —
duration 1/8 s, which is not a multiple of 0.1 s (C9). -/
def wav45 : List ℕ :=
  [82, 73, 70, 70, 37, 0, 0, 0, 87, 65, 86, 69,
   102, 109, 116, 32, 16, 0, 0, 0, 1, 0, 1, 0,
   8, 0, 0, 0, 8, 0, 0, 0, 1, 0, 8, 0,
   100, 97, 116, 97, 1, 0, 0, 0, 0]

/-! ## Loop equations: the fuelled loops satisfy the source's `while` steps -/

theorem foldLowAux_congr (k k' : ℕ) (m : ℤ) (hk : (48 - m).toNat ≤ k)
    (hk' : (48 - m).toNat ≤ k') : foldLowAux k m = foldLowAux k' m := by
  induction k generalizing k' m with
  | zero =>
    have hm : ¬ m < 48 := by omega
    cases k' with
    | zero => rfl
    | succ j =>
      simp only [foldLowAux]
      rw [if_neg hm]
  | succ j ih =>
    cases k' with
    | zero =>
      have hm : ¬ m < 48 := by omega
      simp only [foldLowAux]
      rw [if_neg hm]
    | succ j' =>
      rw [foldLowAux, foldLowAux]
      by_cases hm : m < 48
      · rw [if_pos hm, if_pos hm]
        exact ih j' (m + 12) (by omega) (by omega)
      · rw [if_neg hm, if_neg hm]

/-- Function `foldLow` satisfies the `while midi < 48: midi += 12` loop equation. -/
theorem foldLow_eq (m : ℤ) : foldLow m = if m < 48 then foldLow (m + 12) else m := by
  by_cases hm : m < 48
  · rw [if_pos hm]
    unfold foldLow
    have h1 : (48 - m).toNat = ((48 - m).toNat - 1) + 1 := by omega
    rw [h1, foldLowAux, if_pos hm]
    exact foldLowAux_congr _ _ _ (by omega) (by omega)
  · rw [if_neg hm]
    unfold foldLow
    have h0 : (48 - m).toNat = 0 := by omega
    rw [h0, foldLowAux]

theorem foldHighAux_congr (k k' : ℕ) (m : ℤ) (hk : (m - 72).toNat ≤ k)
    (hk' : (m - 72).toNat ≤ k') : foldHighAux k m = foldHighAux k' m := by
  induction k generalizing k' m with
  | zero =>
    have hm : ¬ 72 < m := by omega
    cases k' with
    | zero => rfl
    | succ j =>
      simp only [foldHighAux]
      rw [if_neg hm]
  | succ j ih =>
    cases k' with
    | zero =>
      have hm : ¬ 72 < m := by omega
      simp only [foldHighAux]
      rw [if_neg hm]
    | succ j' =>
      rw [foldHighAux, foldHighAux]
      by_cases hm : 72 < m
      · rw [if_pos hm, if_pos hm]
        exact ih j' (m - 12) (by omega) (by omega)
      · rw [if_neg hm, if_neg hm]

/-- Function `foldHigh` satisfies the `while midi > 72: midi -= 12` loop equation. -/
theorem foldHigh_eq (m : ℤ) : foldHigh m = if 72 < m then foldHigh (m - 12) else m := by
  by_cases hm : 72 < m
  · rw [if_pos hm]
    unfold foldHigh
    have h1 : (m - 72).toNat = ((m - 72).toNat - 1) + 1 := by omega
    rw [h1, foldHighAux, if_pos hm]
    exact foldHighAux_congr _ _ _ (by omega) (by omega)
  · rw [if_neg hm]
    unfold foldHigh
    have h0 : (m - 72).toNat = 0 := by omega
    rw [h0, foldHighAux]

theorem encodeVarintAux_congr (k k' v : ℕ) (hk : v ≤ k) (hk' : v ≤ k') :
    encodeVarintAux k v = encodeVarintAux k' v := by
  induction k generalizing k' v with
  | zero =>
    have hv : v = 0 := by omega
    cases k' with
    | zero => rfl
    | succ j =>
      simp only [encodeVarintAux]
      rw [if_pos hv]
  | succ j ih =>
    cases k' with
    | zero =>
      have hv : v = 0 := by omega
      simp only [encodeVarintAux]
      rw [if_pos hv]
    | succ j' =>
      rw [encodeVarintAux, encodeVarintAux]
      by_cases hv : v = 0
      · rw [if_pos hv, if_pos hv]
      · rw [if_neg hv, if_neg hv]
        have hd : v / 128 < v := Nat.div_lt_self (Nat.pos_of_ne_zero hv) (by norm_num)
        exact congrArg _ (ih j' (v / 128) (by omega) (by omega))

/-- Function `encodeVarintLoop` satisfies the `while value:` loop equation of
`_encode_varint`. -/
theorem encodeVarintLoop_eq (v : ℕ) :
    encodeVarintLoop v =
      if v = 0 then [] else (v % 128 + 128) :: encodeVarintLoop (v / 128) := by
  by_cases hv : v = 0
  · rw [if_pos hv]
    subst hv
    rfl
  · rw [if_neg hv]
    unfold encodeVarintLoop
    have h1 : v = (v - 1) + 1 := by omega
    rw [h1, encodeVarintAux, if_neg (by omega : ¬ v - 1 + 1 = 0)]
    rw [← h1]
    have hd : v / 128 < v := Nat.div_lt_self (Nat.pos_of_ne_zero hv) (by norm_num)
    exact congrArg _ (encodeVarintAux_congr _ _ _ (by omega) le_rfl)

/-! ## Facts about the pitch-folding loops -/

theorem foldLowAux_ge (k : ℕ) (m : ℤ) (hk : (48 - m).toNat ≤ k) :
    48 ≤ foldLowAux k m := by
  induction k generalizing m with
  | zero => rw [foldLowAux]; omega
  | succ j ih =>
    rw [foldLowAux]
    by_cases hm : m < 48
    · rw [if_pos hm]
      exact ih (m + 12) (by omega)
    · rw [if_neg hm]; omega

theorem foldLow_ge (m : ℤ) : 48 ≤ foldLow m := foldLowAux_ge _ m le_rfl

theorem foldHighAux_ge (k : ℕ) (m : ℤ) (hm : 48 ≤ m) : 48 ≤ foldHighAux k m := by
  induction k generalizing m with
  | zero => rw [foldHighAux]; omega
  | succ j ih =>
    rw [foldHighAux]
    by_cases h : 72 < m
    · rw [if_pos h]
      exact ih (m - 12) (by omega)
    · rw [if_neg h]; omega

theorem foldHighAux_le (k : ℕ) (m : ℤ) (hk : (m - 72).toNat ≤ k) :
    foldHighAux k m ≤ 72 := by
  induction k generalizing m with
  | zero => rw [foldHighAux]; omega
  | succ j ih =>
    rw [foldHighAux]
    by_cases h : 72 < m
    · rw [if_pos h]
      exact ih (m - 12) (by omega)
    · rw [if_neg h]; omega

/-- Every value `resolveMidi` produces lies in the playable range [48,72]. -/
theorem resolveMidi_mem (sem off octave : ℤ) :
    48 ≤ resolveMidi sem off octave ∧ resolveMidi sem off octave ≤ 72 :=
  ⟨foldHighAux_ge _ _ (foldLow_ge _), foldHighAux_le _ _ le_rfl⟩

theorem foldLowAux_emod (k : ℕ) (m : ℤ) : foldLowAux k m % 12 = m % 12 := by
  induction k generalizing m with
  | zero => rw [foldLowAux]
  | succ j ih =>
    rw [foldLowAux]
    by_cases hm : m < 48
    · rw [if_pos hm]
      rw [ih (m + 12)]
      omega
    · rw [if_neg hm]

theorem foldHighAux_emod (k : ℕ) (m : ℤ) : foldHighAux k m % 12 = m % 12 := by
  induction k generalizing m with
  | zero => rw [foldHighAux]
  | succ j ih =>
    rw [foldHighAux]
    by_cases hm : 72 < m
    · rw [if_pos hm]
      rw [ih (m - 12)]
      omega
    · rw [if_neg hm]

/-- Octave folding preserves the pitch class (the value mod 12). -/
theorem resolveMidi_emod (sem off octave : ℤ) :
    resolveMidi sem off octave % 12 = ((octave + 1) * 12 + sem + off) % 12 := by
  unfold resolveMidi foldHigh foldLow
  rw [foldHighAux_emod, foldLowAux_emod]

/-- Whenever `pitch_to_midi` succeeds, its value is `resolveMidi` of the
parsed groups. -/
theorem pitch_to_midi_eq (s : String) (m : ℤ) (h : pitch_to_midi s = some m) :
    ∃ g, parsePitchChars (stripChars s.data) = some g ∧ resolveMidi g.1 g.2.1 g.2.2 = m := by
  unfold pitch_to_midi at h
  rcases Option.map_eq_some'.mp h with ⟨g, hg, hm⟩
  exact ⟨g, hg, hm⟩

/-! ## Claim C2: VLQ round-trip -/

theorem decode_encodeVarintLoop (v : ℕ) :
    (encodeVarintLoop v).reverse.foldl (fun acc b => acc * 128 + b % 128) 0 = v := by
  induction v using Nat.strong_induction_on with
  | _ v ih =>
    rw [encodeVarintLoop_eq]
    by_cases hv : v = 0
    · rw [if_pos hv]
      simp [hv]
    · rw [if_neg hv]
      rw [List.reverse_cons, List.foldl_append]
      rw [ih (v / 128) (Nat.div_lt_self (Nat.pos_of_ne_zero hv) (by norm_num))]
      simp only [List.foldl_cons, List.foldl_nil]
      omega

/-- C2: the variable-length-quantity encoder round-trips: decoding the
base-128, most-significant-first groups of `_encode_varint n` (low 7 bits
of each byte) returns `n`; and `_encode_varint` maps 0 to `00`, 127 to
`7F`, and 128 to `81 00`. -/
theorem varint_roundtrip :
    (∀ n : ℕ, decode_varint (_encode_varint n) = n) ∧
    _encode_varint 0 = [0x00] ∧
    _encode_varint 127 = [0x7F] ∧
    _encode_varint 128 = [0x81, 0x00] := by
  refine ⟨fun n => ?_, by decide, by decide, by decide⟩
  unfold _encode_varint decode_varint
  rw [List.reverse_cons, List.foldl_append, decode_encodeVarintLoop]
  simp only [List.foldl_cons, List.foldl_nil]
  omega

/-! ## Claim C6: the tempo meta-event payload -/

/-- C6: for every tempo `b ∈ [40,200]`, `_meta_tempo b` is `FF 51 03`
followed by exactly 3 bytes that, read big-endian, decode to
`⌊60000000 / b⌋` (which lies in `[300000, 1500000]`, hence fits). -/
theorem tempo_meta_payload (b : ℕ) (h40 : 40 ≤ b) (h200 : b ≤ 200) :
    _meta_tempo b =
      [0xFF, 0x51, 0x03,
       60000000 / b / 65536 % 256, 60000000 / b / 256 % 256, 60000000 / b % 256] ∧
    60000000 / b / 65536 % 256 * 65536 + 60000000 / b / 256 % 256 * 256
        + 60000000 / b % 256 = 60000000 / b ∧
    300000 ≤ 60000000 / b ∧ 60000000 / b ≤ 1500000 := by
  have hub : 60000000 / b ≤ 1500000 := by
    have h1 : 60000000 / b * b ≤ 60000000 := Nat.div_mul_le_self _ _
    have h2 : 60000000 / b * 40 ≤ 60000000 / b * b :=
      Nat.mul_le_mul_left _ h40
    omega
  have hlb : 300000 ≤ 60000000 / b := by
    have h1 : 60000000 / 200 ≤ 60000000 / b := Nat.div_le_div_left h200 (by omega)
    norm_num at h1
    omega
  refine ⟨rfl, ?_, hlb, hub⟩
  have h1 := Nat.div_add_mod (60000000 / b) 256
  have h2 := Nat.div_add_mod (60000000 / b / 256) 256
  have h3 : 60000000 / b / 256 / 256 = 60000000 / b / 65536 := by
    rw [Nat.div_div_eq_div_mul]
  have h4 : 60000000 / b / 65536 < 256 := Nat.div_lt_of_lt_mul (by omega)
  omega

/-- Witness for C6 at the concrete tempo 90 BPM
(`⌊60000000 / 90⌋ = 666666` = `0A 2C 2A`). -/
theorem tempo_meta_payload_witness :
    _meta_tempo 90 =
      [0xFF, 0x51, 0x03,
       60000000 / 90 / 65536 % 256, 60000000 / 90 / 256 % 256, 60000000 / 90 % 256] ∧
    60000000 / 90 / 65536 % 256 * 65536 + 60000000 / 90 / 256 % 256 * 256
        + 60000000 / 90 % 256 = 60000000 / 90 ∧
    300000 ≤ 60000000 / 90 ∧ 60000000 / 90 ≤ 1500000 :=
  tempo_meta_payload 90 (by decide) (by decide)

/-! ## Claim C4: pitch resolution lands in [48,72] -/

/-- C4: every pitch token accepted by `pitch_to_midi` resolves into the
closed range [48,72]; in particular `"C4" ↦ 60`, `"C3" ↦ 48`,
`"C5" ↦ 72`. -/
theorem pitch_to_midi_range (s : String) (m : ℤ) (h : pitch_to_midi s = some m) :
    (48 ≤ m ∧ m ≤ 72) ∧
    pitch_to_midi "C4" = some 60 ∧
    pitch_to_midi "C3" = some 48 ∧
    pitch_to_midi "C5" = some 72 := by
  refine ⟨?_, by decide, by decide, by decide⟩
  rcases pitch_to_midi_eq s m h with ⟨g, _, hm⟩
  exact hm ▸ resolveMidi_mem g.1 g.2.1 g.2.2

/-- Witness for C4 at the token `"C4"`. -/
theorem pitch_to_midi_range_witness :
    ((48 : ℤ) ≤ 60 ∧ (60 : ℤ) ≤ 72) ∧
    pitch_to_midi "C4" = some 60 ∧
    pitch_to_midi "C3" = some 48 ∧
    pitch_to_midi "C5" = some 72 :=
  pitch_to_midi_range "C4" 60 (by decide)

/-! ## Claim C3: octave transposition is NOT invariant (corrected) -/

/-- Counterexample to C3 as stated: `"C5"` is `"C4"` with the octave
shifted by one, but the two tokens resolve to different MIDI numbers
(72 vs 60) — values already inside [48,72] are left where they are, and
that range contains more than one full octave. -/
theorem octave_shift_counterexample :
    pitch_to_midi "C4" = some 60 ∧
    pitch_to_midi "C5" = some 72 ∧
    pitch_to_midi "C4" ≠ pitch_to_midi "C5" := by decide

/-- C3 (amended): shifting a pitch token's octave by any integer `k`
preserves the resolved value's pitch class (value mod 12) and keeps the
result inside [48,72]; it does not in general preserve the value itself. -/
theorem octave_shift_pitch_class (sem off octave k : ℤ) :
    resolveMidi sem off (octave + k) % 12 = resolveMidi sem off octave % 12 ∧
    48 ≤ resolveMidi sem off (octave + k) ∧ resolveMidi sem off (octave + k) ≤ 72 := by
  refine ⟨?_, (resolveMidi_mem sem off (octave + k)).1, (resolveMidi_mem sem off (octave + k)).2⟩
  rw [resolveMidi_emod, resolveMidi_emod]
  omega

/-! ## Claim C5: event times truncate, not round (corrected) -/

unseal Rat.mul Rat.inv in
/-- Counterexample to C5 as stated: at `start_beat = 0.333` the start
tick is `int(0.333 * 480) = int(159.84) = 159` (truncation), while
rounding would give 160. -/
theorem start_tick_truncates_counterexample :
    startTick fracNote = 159 ∧
    round (fracNote.start_beat * 480) = 160 ∧
    (startTick fracNote : ℤ) ≠ round (fracNote.start_beat * 480) := by
  have h1 : startTick fracNote = 159 := by decide
  have h2 : round (fracNote.start_beat * 480) = 160 := by
    show round ((333 / 1000 : ℚ) * 480) = 160
    rw [round_eq]
    apply Int.floor_eq_iff.mpr
    constructor <;> norm_num
  exact ⟨h1, h2, by rw [h1, h2]; decide⟩

/-- C5 (amended): for every note whose pitch resolves, the scheduler's
events are a note-on at `start_tick = trunc(start_beat * 480)` and a
note-off at `start_tick + duration_ticks` with
`duration_ticks = max(1, trunc(duration_beats * 480))`, so
`duration_ticks` is always at least 1. -/
theorem schedule_ticks (n : NoteEntry) (m : ℤ) (h : pitch_to_midi n.pitch = some m) :
    noteEvents n =
      [⟨ratTrunc (n.start_beat * 480), 1, 0x90, m.toNat, (velClamp n.velocity).toNat⟩,
       ⟨ratTrunc (n.start_beat * 480) + max 1 (ratTrunc (n.duration_beats * 480)), 0, 0x80,
        m.toNat, 0⟩] ∧
    1 ≤ durTicks n := by
  constructor
  · unfold noteEvents
    rw [h]
    rfl
  · exact le_max_left _ _

/-- Witness for the amended C5 at the note `{"C4", 0, 1, 80}`. -/
theorem schedule_ticks_witness :
    noteEvents exNote =
      [⟨ratTrunc (exNote.start_beat * 480), 1, 0x90, (60 : ℤ).toNat,
        (velClamp exNote.velocity).toNat⟩,
       ⟨ratTrunc (exNote.start_beat * 480) + max 1 (ratTrunc (exNote.duration_beats * 480)),
        0, 0x80, (60 : ℤ).toNat, 0⟩] ∧
    1 ≤ durTicks exNote :=
  schedule_ticks exNote 60 (by decide)

/-! ## Claim C1: event ordering in the serialized track -/

/-- Every event of `scoreEvents` originates from some melody entry. -/
theorem mem_scoreEvents {e : MEvent} {mel : List NoteEntry} (h : e ∈ scoreEvents mel) :
    ∃ n ∈ mel, e ∈ noteEvents n := by
  unfold scoreEvents at h
  have h1 := (List.perm_insertionSort eventLe _).subset h
  rcases List.mem_flatten.mp h1 with ⟨l, hl, hel⟩
  rcases List.mem_map.mp hl with ⟨n, hn, rfl⟩
  exact ⟨n, (List.perm_insertionSort noteLe mel).subset hn, hel⟩

/-- Every event the builder emits is a note-on `0x90` with priority 1 or a
note-off `0x80` with priority 0. -/
theorem scoreEvents_status {e : MEvent} {mel : List NoteEntry} (h : e ∈ scoreEvents mel) :
    (e.status = 0x90 ∧ e.prio = 1) ∨ (e.status = 0x80 ∧ e.prio = 0) := by
  rcases mem_scoreEvents h with ⟨n, _, he⟩
  unfold noteEvents at he
  rcases hp : pitch_to_midi n.pitch with _ | m
  · rw [hp] at he
    simp at he
  · rw [hp] at he
    simp only [List.mem_cons, List.not_mem_nil, or_false] at he
    rcases he with rfl | rfl
    · exact Or.inl ⟨rfl, rfl⟩
    · exact Or.inr ⟨rfl, rfl⟩

/-- C1: the builder's serialized event list is ordered by ascending
absolute tick, and among events sharing a tick no note-on (`0x90`)
precedes a note-off (`0x80`) — i.e. every note-off at a tick is
serialized before every note-on at that tick. -/
theorem events_ordering (mel : List NoteEntry) :
    (scoreEvents mel).Pairwise
      (fun e f => e.tick ≤ f.tick ∧
        (e.tick = f.tick → ¬(e.status = 0x90 ∧ f.status = 0x80))) := by
  have hs : (scoreEvents mel).Pairwise eventLe := List.sorted_insertionSort eventLe _
  refine hs.imp_of_mem ?_
  intro a b ha hb hab
  have Pa := scoreEvents_status ha
  have Pb := scoreEvents_status hb
  constructor
  · rcases hab with h | ⟨h, _⟩
    · exact le_of_lt h
    · exact le_of_eq h
  · rintro heq ⟨ha90, hb80⟩
    rcases Pa with ⟨_, hp1⟩ | ⟨hs80, _⟩
    · rcases Pb with ⟨hs90, _⟩ | ⟨_, hp0⟩
      · omega
      · rcases hab with hlt | ⟨_, hle⟩
        · exact absurd heq (ne_of_lt hlt)
        · omega
    · omega

/-! ## Claim C10: encoder termination and non-negative deltas -/

theorem ratTrunc_nonneg {q : ℚ} (h : 0 ≤ q) : 0 ≤ ratTrunc q :=
  Int.tdiv_nonneg (Rat.num_nonneg.mpr h) (Int.ofNat_nonneg q.den)

/-- With non-negative start beats (the data-model invariant), every event
tick is non-negative. -/
theorem scoreEvents_tick_nonneg {mel : List NoteEntry}
    (hs : ∀ n ∈ mel, 0 ≤ n.start_beat) : ∀ e ∈ scoreEvents mel, 0 ≤ e.tick := by
  intro e he
  rcases mem_scoreEvents he with ⟨n, hn, hne⟩
  have h0 : 0 ≤ startTick n :=
    ratTrunc_nonneg (mul_nonneg (hs n hn) (by norm_num))
  have h1 : 1 ≤ durTicks n := le_max_left _ _
  unfold noteEvents at hne
  rcases hp : pitch_to_midi n.pitch with _ | m
  · rw [hp] at hne
    simp at hne
  · rw [hp] at hne
    simp only [List.mem_cons, List.not_mem_nil, or_false] at hne
    rcases hne with rfl | rfl
    · exact h0
    · show 0 ≤ startTick n + durTicks n
      omega

/-- Deltas of a tick-sorted event list starting at or after `cur` are all
non-negative. -/
theorem trackDeltas_nonneg :
    ∀ (l : List MEvent) (cur : ℤ), (∀ e ∈ l, cur ≤ e.tick) →
      l.Pairwise (fun a b => a.tick ≤ b.tick) →
      ∀ d ∈ trackDeltas cur l, 0 ≤ d := by
  intro l
  induction l with
  | nil =>
    intro cur _ _ d hd
    simp [trackDeltas] at hd
  | cons e t ih =>
    intro cur hcur hpw d hd
    rw [trackDeltas] at hd
    rw [List.pairwise_cons] at hpw
    rcases List.mem_cons.mp hd with rfl | hd'
    · have := hcur e (List.mem_cons_self e t)
      omega
    · exact ih e.tick hpw.1 hpw.2 d hd'

/-- C10: the `_encode_varint` loop measure strictly decreases (the shifted
value `v >> 7` is smaller, so the loop terminates on every non-negative
input, and the encoding is never empty), and inside `build_midi` every
delta fed to the encoder is non-negative: the event list is sorted by
ascending tick and its first tick is non-negative for any melody
respecting the data model's non-negative `start_beat`. -/
theorem varint_termination_and_deltas (s : MusicScore)
    (hs : ∀ n ∈ s.melody, 0 ≤ n.start_beat) (v : ℕ) (hv : 0 < v) :
    v / 128 < v ∧ _encode_varint v ≠ [] ∧
    (trackDeltas 0 (scoreEvents s.melody)).all (fun d => decide (0 ≤ d)) = true := by
  refine ⟨Nat.div_lt_self hv (by norm_num), by simp [_encode_varint], ?_⟩
  rw [List.all_eq_true]
  intro d hd
  rw [decide_eq_true_eq]
  have hsorted : (scoreEvents s.melody).Pairwise (fun a b => a.tick ≤ b.tick) := by
    have h := List.sorted_insertionSort eventLe
      (((List.insertionSort noteLe s.melody).map noteEvents).flatten)
    refine h.imp ?_
    intro a b hab
    rcases hab with h1 | ⟨h1, _⟩
    · exact le_of_lt h1
    · exact le_of_eq h1
  exact trackDeltas_nonneg _ 0 (scoreEvents_tick_nonneg hs) hsorted d hd

/-- Witness for C10 at the one-note 90 BPM score and `v = 5`. -/
theorem varint_termination_and_deltas_witness :
    5 / 128 < 5 ∧ _encode_varint 5 ≠ [] ∧
    (trackDeltas 0 (scoreEvents exScore.melody)).all (fun d => decide (0 ≤ d)) = true :=
  varint_termination_and_deltas exScore (by decide) 5 (by decide)

/-! ## Claim C7: notes with unparseable pitch are silently dropped -/

theorem orderedInsert_eq_cons {α : Type} {r : α → α → Prop} [DecidableRel r] {x : α}
    {l : List α} (h : ∀ z ∈ l, r x z) : List.orderedInsert r x l = x :: l := by
  cases l with
  | nil => rfl
  | cons y ys => rw [List.orderedInsert, if_pos (h y (List.mem_cons_self y ys))]

theorem filter_orderedInsert_of_pos {α : Type} {r : α → α → Prop} [DecidableRel r]
    [IsTrans α r] {p : α → Bool} {x : α} (hx : p x = true) :
    ∀ {l : List α}, l.Sorted r →
      (List.orderedInsert r x l).filter p = List.orderedInsert r x (l.filter p) := by
  intro l
  induction l with
  | nil => simp [List.orderedInsert, hx]
  | cons y ys ih =>
    intro hs
    rw [List.orderedInsert]
    by_cases hr : r x y
    · rw [if_pos hr]
      cases hy : p y with
      | false =>
        have h1 : (x :: y :: ys).filter p = x :: (y :: ys).filter p :=
          List.filter_cons_of_pos hx
        have h2 : (y :: ys).filter p = ys.filter p :=
          List.filter_cons_of_neg (by simp [hy])
        rw [h1, h2]
        refine (orderedInsert_eq_cons ?_).symm
        intro z hz
        have hz' := List.rel_of_sorted_cons hs z (List.mem_of_mem_filter hz)
        exact Trans.trans hr hz'
      | true =>
        have h1 : (x :: y :: ys).filter p = x :: (y :: ys).filter p :=
          List.filter_cons_of_pos hx
        have h2 : (y :: ys).filter p = y :: ys.filter p :=
          List.filter_cons_of_pos hy
        rw [h1, h2, List.orderedInsert, if_pos hr]
    · rw [if_neg hr]
      cases hy : p y with
      | false =>
        have h1 : (y :: List.orderedInsert r x ys).filter p =
            (List.orderedInsert r x ys).filter p :=
          List.filter_cons_of_neg (by simp [hy])
        have h2 : (y :: ys).filter p = ys.filter p :=
          List.filter_cons_of_neg (by simp [hy])
        rw [h1, h2]
        exact ih ((List.sorted_cons.mp hs).2)
      | true =>
        have h1 : (y :: List.orderedInsert r x ys).filter p =
            y :: (List.orderedInsert r x ys).filter p :=
          List.filter_cons_of_pos hy
        have h2 : (y :: ys).filter p = y :: ys.filter p :=
          List.filter_cons_of_pos hy
        rw [h1, h2, List.orderedInsert, if_neg hr, ih ((List.sorted_cons.mp hs).2)]

theorem filter_orderedInsert_of_neg {α : Type} {r : α → α → Prop} [DecidableRel r]
    {p : α → Bool} {x : α} (hx : p x = false) :
    ∀ (l : List α), (List.orderedInsert r x l).filter p = l.filter p := by
  intro l
  induction l with
  | nil => simp [List.orderedInsert, hx]
  | cons y ys ih =>
    rw [List.orderedInsert]
    by_cases hr : r x y
    · rw [if_pos hr, List.filter_cons_of_neg (by simp [hx])]
    · rw [if_neg hr]
      cases hy : p y with
      | false =>
        have h1 : (y :: List.orderedInsert r x ys).filter p =
            (List.orderedInsert r x ys).filter p :=
          List.filter_cons_of_neg (by simp [hy])
        have h2 : (y :: ys).filter p = ys.filter p :=
          List.filter_cons_of_neg (by simp [hy])
        rw [h1, h2, ih]
      | true =>
        have h1 : (y :: List.orderedInsert r x ys).filter p =
            y :: (List.orderedInsert r x ys).filter p :=
          List.filter_cons_of_pos hy
        have h2 : (y :: ys).filter p = y :: ys.filter p :=
          List.filter_cons_of_pos hy
        rw [h1, h2, ih]

/-- A stable insertion sort commutes with `filter`. -/
theorem filter_insertionSort_comm {α : Type} (r : α → α → Prop) [DecidableRel r]
    [IsTotal α r] [IsTrans α r] (p : α → Bool) :
    ∀ l : List α, (List.insertionSort r l).filter p = List.insertionSort r (l.filter p) := by
  intro l
  induction l with
  | nil => rfl
  | cons x xs ih =>
    rw [List.insertionSort]
    cases hx : p x with
    | false =>
      rw [filter_orderedInsert_of_neg hx, ih, List.filter_cons_of_neg (by simp [hx])]
    | true =>
      rw [filter_orderedInsert_of_pos hx (List.sorted_insertionSort r xs), ih,
        List.filter_cons_of_pos hx, List.insertionSort]

/-- Entries whose pitch fails to parse contribute no events, so filtering
them away does not change the flattened event stream. -/
theorem flatten_map_filter_parse (mel : List NoteEntry) :
    ((mel.filter (fun n => (pitch_to_midi n.pitch).isSome)).map noteEvents).flatten =
      (mel.map noteEvents).flatten := by
  induction mel with
  | nil => rfl
  | cons n t ih =>
    rw [List.filter_cons]
    cases hp : (pitch_to_midi n.pitch).isSome with
    | false =>
      have hnone : pitch_to_midi n.pitch = none :=
        Option.not_isSome_iff_eq_none.mp (by simp [hp])
      have hempty : noteEvents n = [] := by
        unfold noteEvents
        rw [hnone]
      rw [if_neg (by simp), List.map_cons, List.flatten_cons, hempty, List.nil_append, ih]
    | true =>
      rw [if_pos rfl, List.map_cons, List.flatten_cons, List.map_cons, List.flatten_cons, ih]

/-- Dropping the unparseable entries leaves `scoreEvents` unchanged. -/
theorem scoreEvents_filter_parse (mel : List NoteEntry) :
    scoreEvents (mel.filter (fun n => (pitch_to_midi n.pitch).isSome)) = scoreEvents mel := by
  unfold scoreEvents
  rw [← filter_insertionSort_comm noteLe]
  exact congrArg _ (flatten_map_filter_parse (List.insertionSort noteLe mel))

/-- Dropping the unparseable entries leaves the whole MIDI file unchanged. -/
theorem build_midi_filter (s : MusicScore) :
    build_midi ⟨s.tempo_bpm, s.melody.filter (fun n => (pitch_to_midi n.pitch).isSome)⟩ =
      build_midi s := by
  simp only [build_midi, buildTrack, scoreEvents_filter_parse]

/-- A note whose pitch fails to parse adds nothing to the sample buffer. -/
theorem addNote_of_none {osc : ℤ → ℕ → ℚ} {spb : ℚ} {sr total : ℕ} {buf : List ℚ}
    {n : NoteEntry} (h : pitch_to_midi n.pitch = none) :
    addNote osc spb sr total buf n = buf := by
  unfold addNote
  rw [h]

/-- C7: a melody entry whose pitch token fails to parse is silently
omitted from both outputs: it contributes no events (so the MIDI bytes
equal those of the score with all unparseable entries removed) and adds
no samples to the WAV buffer; both renderers still return byte streams
with the correct `MThd` / `RIFF` structure instead of failing. -/
theorem bad_pitch_dropped (s : MusicScore) (n : NoteEntry) (osc : ℤ → ℕ → ℚ)
    (spb : ℚ) (sr total : ℕ) (buf : List ℚ)
    (hmem : n ∈ s.melody) (hbad : pitch_to_midi n.pitch = none) :
    noteEvents n = [] ∧
    addNote osc spb sr total buf n = buf ∧
    build_midi s =
      build_midi ⟨s.tempo_bpm, s.melody.filter (fun x => (pitch_to_midi x.pitch).isSome)⟩ ∧
    (build_midi s).take 4 = [77, 84, 104, 100] ∧
    (synthesize_wav osc s sr).take 4 = [82, 73, 70, 70] := by
  have _keep := hmem
  refine ⟨?_, addNote_of_none hbad, (build_midi_filter s).symm, rfl, rfl⟩
  unfold noteEvents
  rw [hbad]

unseal Rat.mul Rat.inv Rat.add in
/-- Witness for C7: the score `{90, [C4-note, Z9-note]}` with the
unparseable `"Z9"` entry. -/
theorem bad_pitch_dropped_witness :
    noteEvents badNote = [] ∧
    addNote (fun _ _ => 0) 1 8 3 [0, 0, 0] badNote = [0, 0, 0] ∧
    build_midi mixedScore =
      build_midi ⟨mixedScore.tempo_bpm,
        mixedScore.melody.filter (fun x => (pitch_to_midi x.pitch).isSome)⟩ ∧
    (build_midi mixedScore).take 4 = [77, 84, 104, 100] ∧
    (synthesize_wav (fun _ _ => 0) mixedScore 8).take 4 = [82, 73, 70, 70] :=
  bad_pitch_dropped mixedScore badNote (fun _ _ => 0) 1 8 3 [0, 0, 0]
    (by decide) (by decide)

/-! ## Claim C8: the synthesis buffer length truncates, not ceils (corrected) -/

/-- On non-negative rationals Python's `int()` truncation is the floor. -/
theorem ratTrunc_eq_floor {q : ℚ} (h : 0 ≤ q) : ratTrunc q = ⌊q⌋ := by
  unfold ratTrunc
  rw [Int.tdiv_eq_ediv (Rat.num_nonneg.mpr h) (Int.ofNat_nonneg q.den)]
  exact Rat.floor_def.symm

theorem maxEnd_foldl_ge (spb : ℚ) :
    ∀ (l : List NoteEntry) (a : ℚ),
      a ≤ l.foldl (fun acc n => if noteEnd spb n > acc then noteEnd spb n else acc) a := by
  intro l
  induction l with
  | nil => intro a; simp
  | cons n t ih =>
    intro a
    rw [List.foldl_cons]
    refine le_trans ?_ (ih _)
    by_cases h : noteEnd spb n > a
    · rw [if_pos h]
      exact le_of_lt h
    · rw [if_neg h]

/-- Accumulator `max_end` starts at 0 and only ever grows. -/
theorem maxEnd_nonneg (spb : ℚ) (mel : List NoteEntry) : 0 ≤ maxEnd spb mel :=
  maxEnd_foldl_ge spb mel 0

/-- Accumulator `max_end` dominates every note's end time. -/
theorem noteEnd_le_maxEnd (spb : ℚ) :
    ∀ (mel : List NoteEntry) (a : ℚ) (n : NoteEntry), n ∈ mel →
      noteEnd spb n ≤ mel.foldl (fun acc m => if noteEnd spb m > acc then noteEnd spb m else acc) a := by
  intro mel
  induction mel with
  | nil =>
    intro a n hn
    exact absurd hn (List.not_mem_nil n)
  | cons m t ih =>
    intro a n hn
    rw [List.foldl_cons]
    rcases List.mem_cons.mp hn with rfl | hn'
    · refine le_trans ?_ (maxEnd_foldl_ge spb t _)
      by_cases h : noteEnd spb n > a
      · rw [if_pos h]
      · rw [if_neg h]
        exact le_of_not_lt h
    · exact ih _ n hn'

/-- A fold whose step preserves list length preserves list length. -/
theorem foldl_length_invariant {β : Type} (f : List ℚ → β → List ℚ)
    (hf : ∀ b x, (f b x).length = b.length) :
    ∀ (l : List β) (b : List ℚ), (l.foldl f b).length = b.length := by
  intro l
  induction l with
  | nil => intro b; rfl
  | cons x t ih =>
    intro b
    rw [List.foldl_cons, ih, hf]

/-- Step `addNote` only updates cells in place: the buffer length never changes. -/
theorem addNote_length (osc : ℤ → ℕ → ℚ) (spb : ℚ) (sr total : ℕ) (buf : List ℚ)
    (n : NoteEntry) : (addNote osc spb sr total buf n).length = buf.length := by
  unfold addNote
  rcases hp : pitch_to_midi n.pitch with _ | m
  · rfl
  · refine foldl_length_invariant _ ?_ _ buf
    intro b i
    dsimp only
    by_cases h : 0 ≤ ratTrunc (n.start_beat * spb * sr) + (i : ℤ) ∧
        ratTrunc (n.start_beat * spb * sr) + (i : ℤ) < (total : ℤ)
    · rw [if_pos h]
      exact List.length_set b _ _
    · rw [if_neg h]

/-- The synthesis buffer's final length is exactly `total_samples`. -/
theorem synthBuf_length (osc : ℤ → ℕ → ℚ) (s : MusicScore) (sr : ℕ) :
    (synthBuf osc s sr).length = (totalSamples s sr).toNat := by
  unfold synthBuf
  rw [foldl_length_invariant _ (fun b n => addNote_length _ _ _ _ b n), List.length_replicate]

unseal Rat.mul Rat.inv Rat.add in
/-- Counterexample to C8 as stated: at 41 BPM a single whole-beat note
ends at `60/41` s, giving `(60/41 + 0.3) * 44100 = 3188430/41 ≈ 77766.59`
samples; the code truncates to 77766 where the claimed `ceil` is 77767. -/
theorem buffer_ceil_counterexample :
    totalSamples score41 44100 = 77766 ∧
    ⌈(maxEnd (spbOf (bpmClamp score41.tempo_bpm)) score41.melody + 3/10) * (44100 : ℚ)⌉
      = 77767 := by
  constructor
  · decide
  · have h1 : maxEnd (spbOf (bpmClamp score41.tempo_bpm)) score41.melody = 60/41 := by
      decide
    rw [h1]
    have h2 : ((60/41 : ℚ) + 3/10) * (44100 : ℚ) = 3188430/41 := by norm_num
    rw [h2]
    apply Int.ceil_eq_iff.mpr
    constructor <;> norm_num

/-- C8 (amended): the synthesizer's buffer has exactly
`trunc((max_end + 0.3) * sample_rate)` samples — the floor, not the
ceiling, of the exact value — where `max_end` bounds every note's end
time (0 for an empty melody); the tail can therefore fall up to one
sample short of a full 0.3 s. -/
theorem buffer_length (osc : ℤ → ℕ → ℚ) (s : MusicScore) (sr : ℕ) :
    (synthBuf osc s sr).length = (totalSamples s sr).toNat ∧
    (totalSamples s sr : ℚ) ≤
      (maxEnd (spbOf (bpmClamp s.tempo_bpm)) s.melody + 3/10) * (sr : ℚ) ∧
    (maxEnd (spbOf (bpmClamp s.tempo_bpm)) s.melody + 3/10) * (sr : ℚ) - 1 <
      (totalSamples s sr : ℚ) ∧
    0 ≤ maxEnd (spbOf (bpmClamp s.tempo_bpm)) s.melody ∧
    (s.melody.all (fun n =>
      decide (noteEnd (spbOf (bpmClamp s.tempo_bpm)) n ≤
        maxEnd (spbOf (bpmClamp s.tempo_bpm)) s.melody))) = true := by
  have hme := maxEnd_nonneg (spbOf (bpmClamp s.tempo_bpm)) s.melody
  have harg : 0 ≤ (maxEnd (spbOf (bpmClamp s.tempo_bpm)) s.melody + 3/10) * (sr : ℚ) := by
    apply mul_nonneg _ (Nat.cast_nonneg sr)
    linarith
  have htf : totalSamples s sr =
      ⌊(maxEnd (spbOf (bpmClamp s.tempo_bpm)) s.melody + 3/10) * (sr : ℚ)⌋ :=
    ratTrunc_eq_floor harg
  refine ⟨synthBuf_length osc s sr, ?_, ?_, hme, ?_⟩
  · rw [htf]
    exact Int.floor_le _
  · rw [htf]
    exact Int.sub_one_lt_floor _
  · rw [List.all_eq_true]
    intro n hn
    rw [decide_eq_true_eq]
    exact noteEnd_le_maxEnd _ s.melody 0 n hn

/-! ## Claim C9: the duration probe rounds to one decimal (corrected) -/

unseal Rat.mul Rat.inv Rat.add Rat.sub in
/-- Counterexample to C9 as stated: a 45-byte mono 8 Hz 8-bit WAV holds
one sample, so the claimed formula gives `1/8 = 0.125` s, but
`_wav_duration` returns `round(0.125, 1) = 0.1`. -/
theorem wav_duration_rounding_counterexample :
    _wav_duration wav45 = 1/10 ∧
    (((wav45.length - 44) / (readU16 wav45 34 / 8) : ℕ) : ℚ)
        / ((readU32 wav45 24 * readU16 wav45 22 : ℕ) : ℚ) = 1/8 ∧
    _wav_duration wav45 ≠
      (((wav45.length - 44) / (readU16 wav45 34 / 8) : ℕ) : ℚ)
        / ((readU32 wav45 24 * readU16 wav45 22 : ℕ) : ℚ) := by
  refine ⟨by decide, by decide, ?_⟩
  intro h
  rw [show (((wav45.length - 44) / (readU16 wav45 34 / 8) : ℕ) : ℚ)
      / ((readU32 wav45 24 * readU16 wav45 22 : ℕ) : ℚ) = 1/8 from by decide] at h
  rw [show _wav_duration wav45 = 1/10 from by decide] at h
  exact absurd h (by decide)

/-- C9 (amended): on a buffer of at least 44 bytes with non-zero sample
rate, non-zero channel count and at least 8 bits per sample,
`_wav_duration` returns
`(data_byte_count / bytes_per_sample) / (sample_rate * channels)`
**rounded to one decimal place** (channels read at offset 22, sample rate
at 24, bits at 34); a buffer shorter than 44 bytes, or one with a zero
sample rate, yields 0 instead of an error. -/
theorem wav_duration_spec (b c d : List ℕ)
    (hb : ¬ b.length < 44) (hbits : ¬ readU16 b 34 / 8 = 0)
    (hsr : ¬ readU32 b 24 = 0) (hch : ¬ readU16 b 22 = 0)
    (hc : c.length < 44)
    (hd : ¬ d.length < 44) (hdsr : readU32 d 24 = 0) :
    _wav_duration b =
      roundTenth ((((b.length - 44) / (readU16 b 34 / 8) : ℕ) : ℚ)
        / ((readU32 b 24 * readU16 b 22 : ℕ) : ℚ)) ∧
    _wav_duration c = 0 ∧
    _wav_duration d = 0 := by
  refine ⟨?_, ?_, ?_⟩
  · unfold _wav_duration
    rw [if_neg hb, if_neg hbits, if_neg hsr, if_neg hch]
  · unfold _wav_duration
    rw [if_pos hc]
  · unfold _wav_duration
    rw [if_neg hd]
    by_cases hb8 : readU16 d 34 / 8 = 0
    · rw [if_pos hb8]
    · rw [if_neg hb8, if_pos hdsr]

/-- Witness for the amended C9: the 45-byte buffer, the empty buffer, and
a 44-byte all-zero buffer. -/
theorem wav_duration_spec_witness :
    _wav_duration wav45 =
      roundTenth ((((wav45.length - 44) / (readU16 wav45 34 / 8) : ℕ) : ℚ)
        / ((readU32 wav45 24 * readU16 wav45 22 : ℕ) : ℚ)) ∧
    _wav_duration [] = 0 ∧
    _wav_duration (List.replicate 44 0) = 0 :=
  wav_duration_spec wav45 [] (List.replicate 44 0)
    (by decide) (by decide) (by decide) (by decide) (by decide) (by decide) (by decide)

end MusicAbility
